import Mathlib

/-!
Verification development for the result-stream decoder of `minizinc.py`
(repository `enigmatic-code/py-minizinc`).

The embedding covers:

* the value grammar decoder: functions `parse`, `parse_array`,
  `parse_array_to_list`, `parse_bool` of `minizinc.py`, together with
  models of the regular expressions they use and of the Python builtins
  `int(...)` and `float(...)` restricted to ASCII text (Python also
  accepts unicode digits and underscore separators; those never occur in
  solver output and are not modelled),
* the solution-reading loop of `MiniZinc.solve` (the `while True:`
  loop over `p.stdout.readline()`), for the default parameters
  `result=None`, `verbose=0`.  The input is modelled as the list of
  decoded, right-stripped lines the loop would see, and `json.loads`
  as an arbitrary function parameter, since the `json` module is a
  collaborator outside this repository.

Machine details that cannot affect any statement here are abstracted:
Python floats are kept as exact rationals plus infinity/NaN markers
(no IEEE rounding), and a fuel argument bounds the recursion depth of
the mutually recursive decoder; the fuel supplied by the top level
entry point exceeds every reachable recursion depth, and every
concrete evaluation below confirms that the fuel marker is never hit.

The index context `self._index` is the one piece of mutable state the
decoder touches, so the decoder is embedded in state-passing style:
every function takes the context store and returns it, a read
(`ctx._index.get`) being modelled as a lookup that returns the store
unchanged.  The Python `ctx` argument (the `MiniZinc` object or
`None`) is modelled by the Boolean `hasCtx` plus the store contents.
-/

namespace Mzn

/-- ASCII model of the regular-expression class `\w` (word character). -/
def isWordChar (c : Char) : Bool := c.isAlphanum || c = '_'

/-- ASCII model of the regular-expression class `\s` (whitespace), also used
for the whitespace stripping of Python `int(...)` and `float(...)`. -/
def isPySpace (c : Char) : Bool :=
  c = ' ' || c = '\t' || c = '\n' || c = '\r' || c = '\x0b' || c = '\x0c'

/-- Drop leading whitespace. -/
def dropLeadWs (l : List Char) : List Char := l.dropWhile isPySpace

/-- Drop trailing whitespace. -/
def dropTrailWs (l : List Char) : List Char := (l.reverse.dropWhile isPySpace).reverse

/-- Strip whitespace from both ends (as Python `str.strip()` does for the
numeric constructors). -/
def stripWsL (l : List Char) : List Char := dropTrailWs (dropLeadWs l)

/-- Numeric value of a digit string. -/
def natOfDigits (l : List Char) : Nat := l.foldl (fun a c => 10 * a + (c.toNat - 48)) 0

/-- Split a character list at every occurrence of `sep` (Python
`str.split(sep)` shape: n separators give n+1 pieces). -/
def splitOnChar (sep : Char) : List Char → List (List Char)
  | [] => [[]]
  | c :: rest =>
    let r := splitOnChar sep rest
    if c = sep then [] :: r
    else
      match r with
      | h :: t => (c :: h) :: t
      | [] => [[c]]

/-- Helper for `contextStrip`: pieces after the first lose the whitespace
adjacent to the separator on their left, and also on their right unless
they are the last piece. -/
def stripRest : List (List Char) → List (List Char)
  | [] => []
  | [p] => [dropLeadWs p]
  | p :: ps => dropTrailWs (dropLeadWs p) :: stripRest ps

/-- Model of Python `re.split(r'\s*<sep>\s*', s)`: whitespace adjacent to a
separator is consumed by the separator match, while whitespace at the two
ends of the whole string is kept. -/
def contextStrip : List (List Char) → List (List Char)
  | [] => []
  | [p] => [p]
  | p :: ps => dropTrailWs p :: stripRest ps

/-- Model of `re.split(r'\s*<sep>\s*', s)` at the string level. -/
def pySplit (sep : Char) (s : String) : List String :=
  (contextStrip (splitOnChar sep s.data)).map (fun l => ⟨l⟩)

/-- Index of the last character satisfying `p`, if any. -/
def lastIdxP (p : Char → Bool) : List Char → Option Nat
  | [] => none
  | c :: rest =>
    match lastIdxP p rest with
    | some i => some (i + 1)
    | none => if p c then some 0 else none

/-- Index of the last occurrence of the two-character pattern `])`, if any. -/
def lastIdxRbRp : List Char → Option Nat
  | [] => none
  | c :: rest =>
    match lastIdxRbRp rest with
    | some i => some (i + 1)
    | none =>
      match rest with
      | c2 :: _ => if c = ']' ∧ c2 = ')' then some 0 else none
      | [] => none

/-- The sublist of positions `i ≤ k < j`. -/
def sliceL (i j : Nat) (l : List Char) : List Char := (l.drop i).take (j - i)

/-- Model of `re.search(r'^-+$', s)`: the line consists of one or more `-`. -/
def isBoundaryLine (s : String) : Bool := !s.data.isEmpty && s.data.all (· = '-')

/-- Model of `re.search(r'^(\w+)\s*=\s*(.+)\s*;$', s)` with its two capture
groups.  With the greedy semantics of the Python engine the identifier is
the maximal word-character run at the start, and the second group runs from
the first non-whitespace position after `=` (backtracking keeps one
character if everything before the final `;` is whitespace) up to, and
including any whitespace before, the final `;`. -/
def assignMatch (s : String) : Option (String × String) :=
  let cs := s.data
  let w := cs.takeWhile isWordChar
  if w.isEmpty then none
  else
    match (cs.drop w.length).dropWhile isPySpace with
    | '=' :: t =>
      match t.getLast? with
      | some ';' =>
        let u := t.dropLast
        if u.isEmpty then none
        else
          let k := min (u.takeWhile isPySpace).length (u.length - 1)
          some (⟨w⟩, ⟨u.drop k⟩)
      | _ => none
    | _ => none

/-- Model of `re.search(r'^array(\d+)d\((.+)\[(.+)\]\)', s)` (list level).
Greedy matching picks the last `])` occurrence overall, then the last `[`
that leaves both groups non-empty; the pattern is not anchored on the
right, so trailing text after `])` is allowed. -/
def arrayHeaderMatchL (cs : List Char) : Option (Nat × List Char × List Char) :=
  match cs with
  | 'a' :: 'r' :: 'r' :: 'a' :: 'y' :: rest =>
    let ds := rest.takeWhile Char.isDigit
    if ds.isEmpty then none
    else
      match rest.drop ds.length with
      | 'd' :: '(' :: t =>
        match lastIdxRbRp t with
        | none => none
        | some j =>
          match lastIdxP (fun c => c = '[') (t.take (j - 1)) with
          | none => none
          | some i =>
            if i = 0 then none
            else some (natOfDigits ds, t.take i, sliceL (i + 1) j t)
      | _ => none
  | _ => none

/-- Model of `re.search(r'^\[\s*(.+)\s*\]', s)` (list level).  The group
runs from the first non-whitespace character after `[` (backtracking keeps
one character when necessary) up to just before the last `]`; the pattern
is not anchored on the right. -/
def arrayLitMatchL (cs : List Char) : Option (List Char) :=
  match cs with
  | '[' :: t =>
    match lastIdxP (fun c => c = ']') t with
    | none => none
    | some j =>
      if j = 0 then none
      else
        let sp := min (t.takeWhile isPySpace).length (j - 1)
        some (sliceL sp j t)
  | _ => none

/-- Model of `re.match(r'^\|\s*(.+)\s*\|$', s)` (list level), anchored at
both ends. -/
def rowPipeMatchL (cs : List Char) : Option (List Char) :=
  match cs with
  | '|' :: t =>
    match t.getLast? with
    | some '|' =>
      let inner := t.dropLast
      if inner.isEmpty then none
      else
        let sp := min (inner.takeWhile isPySpace).length (inner.length - 1)
        some (inner.drop sp)
    | _ => none
  | _ => none

/-- Model of `re.match(r'(\d+)\.\.(\d+)$', s)`: the whole string is a
digit run, two dots, and a digit run. -/
def rangeMatch (s : String) : Option (Nat × Nat) :=
  let cs := s.data
  let d1 := cs.takeWhile Char.isDigit
  if d1.isEmpty then none
  else
    match cs.dropWhile Char.isDigit with
    | '.' :: '.' :: r2 =>
      let d2 := r2.takeWhile Char.isDigit
      if d2.isEmpty then none
      else if (r2.dropWhile Char.isDigit).isEmpty then
        some (natOfDigits d1, natOfDigits d2)
      else none
    | _ => none

/-- Model of Python `int(s)` (base 10, ASCII): optional surrounding
whitespace, an optional sign, then a non-empty digit run. -/
def pyInt? (s : String) : Option Int :=
  match stripWsL s.data with
  | '+' :: r => if !r.isEmpty && r.all Char.isDigit then some (natOfDigits r : Int) else none
  | '-' :: r => if !r.isEmpty && r.all Char.isDigit then some (-(natOfDigits r : Int)) else none
  | r => if !r.isEmpty && r.all Char.isDigit then some (natOfDigits r : Int) else none

/-- A Python float value, abstracted: finite values are kept as exact
rationals (IEEE rounding is immaterial to every statement below),
infinities and NaN are markers. -/
inductive PyFloat where
  | finite (q : ℚ)
  | inf (neg : Bool)
  | nan
deriving DecidableEq

/-- Exponent part of a float literal: `none` means malformed, `some none`
means no exponent present. -/
def expPart (l : List Char) : Option (Option (Bool × Nat)) :=
  match l with
  | [] => some none
  | 'e' :: r | 'E' :: r =>
    match r with
    | '+' :: d => if !d.isEmpty && d.all Char.isDigit then some (some (false, natOfDigits d)) else none
    | '-' :: d => if !d.isEmpty && d.all Char.isDigit then some (some (true, natOfDigits d)) else none
    | d => if !d.isEmpty && d.all Char.isDigit then some (some (false, natOfDigits d)) else none
  | _ => none

/-- Build the rational value of a decimal literal with integer digits `d1`,
fractional digits `d2` and optional exponent. -/
def mkFinite (d1 d2 : List Char) (eo : Option (Bool × Nat)) : PyFloat :=
  let m : ℚ := (natOfDigits (d1 ++ d2) : ℚ) / (10 : ℚ) ^ d2.length
  match eo with
  | none => .finite m
  | some (neg, e) => .finite (m * (10 : ℚ) ^ (if neg then -(e : ℤ) else (e : ℤ)))

/-- Decimal body of a float literal (after sign removal):
`digits [. digits] [exponent]`, at least one digit in the mantissa. -/
def decBody (l : List Char) : Option PyFloat :=
  let d1 := l.takeWhile Char.isDigit
  match l.dropWhile Char.isDigit with
  | '.' :: r2 =>
    let d2 := r2.takeWhile Char.isDigit
    if d1.isEmpty && d2.isEmpty then none
    else
      match expPart (r2.dropWhile Char.isDigit) with
      | some eo => some (mkFinite d1 d2 eo)
      | none => none
  | r1 =>
    if d1.isEmpty then none
    else
      match expPart r1 with
      | some eo => some (mkFinite d1 [] eo)
      | none => none

/-- Model of Python `float(s)` (ASCII): optional surrounding whitespace, an
optional sign, then a decimal literal or `inf`/`infinity`/`nan`
(case-insensitive). -/
def pyFloat? (s : String) : Option PyFloat :=
  let signed : Bool × List Char :=
    match stripWsL s.data with
    | '+' :: r => (false, r)
    | '-' :: r => (true, r)
    | r => (false, r)
  let neg := signed.1
  let body := signed.2
  let lower := body.map Char.toLower
  if lower = "inf".data || lower = "infinity".data then some (.inf neg)
  else if lower = "nan".data then some .nan
  else
    match decBody body with
    | some (.finite q) => some (.finite (if neg then -q else q))
    | other => other

/-- Model of `parse_bool` of `minizinc.py`.  The Python function raises
`ValueError` on any other input; that error is always caught by the
literal loop in `parse`, so it is modelled as `none`. -/
def parse_bool (s : String) : Option Bool :=
  if s = "true" then some true else if s = "false" then some false else none

/-- A key of one of the dictionaries built by `parse_array`: an integer
from a numeric range, or a label string from the index context. -/
inductive Label where
  | i (n : Int)
  | s (t : String)
deriving DecidableEq

/-- A decoded Python value: `bool`, `int`, `float`, `list` (from an
unindexed array literal), `dict` as an insertion-ordered association list
(from an indexed array literal), or the verbatim fallback string. -/
inductive Value where
  | bool (b : Bool)
  | int (n : Int)
  | float (f : PyFloat)
  | seq (xs : List Value)
  | dict (es : List (Label × Value))
  | atom (t : String)

/-- An uncaught Python exception raised while decoding. -/
inductive PyErr where
  | valueError (msg : String)
  | unboundLocal (var : String)
  | indexError (msg : String)
  | jsonError (msg : String)
  | fuelExhausted
deriving DecidableEq

/-- The contents of the index context `self._index`: an association of
index-set names to label lists. -/
abbrev Ctx := List (String × List String)

/-- Model of `self._index.get(name, None)`. -/
def ctxGet (σ : Ctx) (k : String) : Option (List String) :=
  match σ.find? (fun p => p.1 == k) with
  | some p => some p.2
  | none => none

/-- The state of the Python local variable `js` in `parse_array` after the
two conditional branches: never assigned, or assigned `None` or a label
list. -/
inductive JsB where
  | unbound
  | val (v : Option (List Label))

/-- The `js` computation of `parse_array`: a numeric `a..b` index spec
binds the integer labels `a` to `b`; otherwise, if a context object was
passed, `js` is bound to the (possibly missing) context entry; with no
context object the variable is left unassigned. -/
def jsBinding (i0 : String) (hasCtx : Bool) (σ : Ctx) : JsB :=
  match rangeMatch i0 with
  | some (a, b) => .val (some ((List.range' a (b + 1 - a)).map (fun n => Label.i (n : Int))))
  | none =>
    if hasCtx then .val ((ctxGet σ i0).map (fun ls => ls.map Label.s))
    else .unbound

/-- Python truthiness test `not js` for a bound `js` (`None`, an empty
range and an empty list are falsy). -/
def jsFalsy (v : Option (List Label)) : Bool :=
  match v with
  | none => true
  | some l => l.isEmpty

/-- Insertion-ordered dictionary update `d[k] = v`: a repeated key keeps
its original position and gets the new value, a new key is appended. -/
def odUpdate {α β : Type} [DecidableEq α] : List (α × β) → α → β → List (α × β)
  | [], k, v => [(k, v)]
  | (k0, v0) :: rest, k, v =>
    if k0 = k then (k0, v) :: rest else (k0, v0) :: odUpdate rest k v

/-- Result type of a decoding step in state-passing style: the value or
the uncaught exception, together with the context store after the call. -/
abbrev St (α : Type) := Except PyErr α × Ctx

/-- The `d == 1` loop of `parse_array`: bind each label in turn to the
next element popped from the front of the shared flat value list, the
leaf decoder being `parse` with the caller's context. -/
def parse_array_loop1 (leaf : String → Ctx → St Value) :
    List Label → List String → List (Label × Value) → Ctx → St (Value × List String)
  | [], vs, acc, σ => (.ok (.dict acc, vs), σ)
  | j :: js, vs, acc, σ =>
    match vs with
    | [] => (.error (.indexError "pop from empty list"), σ)
    | v0 :: rest =>
      match leaf v0 σ with
      | (.error e, σ1) => (.error e, σ1)
      | (.ok x, σ1) => parse_array_loop1 leaf js rest (odUpdate acc j x) σ1

/-- The `d > 1` loop of `parse_array`: bind each label of the outermost
axis to the recursive decode of the remaining dimensions, the flat value
list advancing as a shared cursor. -/
def parse_array_loopN (sub : List String → Ctx → St (Value × List String)) :
    List Label → List String → List (Label × Value) → Ctx → St (Value × List String)
  | [], vs, acc, σ => (.ok (.dict acc, vs), σ)
  | j :: js, vs, acc, σ =>
    match sub vs σ with
    | (.error e, σ1) => (.error e, σ1)
    | (.ok (x, vs1), σ1) => parse_array_loopN sub js vs1 (odUpdate acc j x) σ1

/-- Model of `parse_array` of `minizinc.py`, parametrised by the leaf
decoder (`parse` at one smaller fuel).  Mirrors the Python control flow:
`i[0]` on an empty list raises `IndexError`; a non-range spec with no
context object leaves `js` unassigned, so the `if not js` test raises
`UnboundLocalError`; a `None` or empty `js` raises
`ValueError("bad index: " + i[0])`; then one of the two loops runs.  The
mutated flat list `vs` is returned alongside the result. -/
def parse_array (leaf : String → Ctx → St Value) (hasCtx : Bool) :
    Nat → List String → List String → Ctx → St (Value × List String)
  | _, [], _, σ => (.error (.indexError "list index out of range"), σ)
  | d, i0 :: irest, vs, σ =>
    match jsBinding i0 hasCtx σ with
    | .unbound => (.error (.unboundLocal "js"), σ)
    | .val jv =>
      if jsFalsy jv then (.error (.valueError ("bad index: " ++ i0)), σ)
      else
        let js := jv.getD []
        if d = 1 then parse_array_loop1 leaf js vs [] σ
        else parse_array_loopN (fun vs2 σ2 => parse_array leaf hasCtx (d - 1) irest vs2 σ2) js vs [] σ

/-- Evaluate a decoder over a list left to right (a Python `list(...)`
over a generator), stopping at the first uncaught exception. -/
def mapSt (g : String → Ctx → St Value) : List String → Ctx → St (List Value)
  | [], σ => (.ok [], σ)
  | x :: xs, σ =>
    match g x σ with
    | (.error e, σ1) => (.error e, σ1)
    | (.ok v, σ1) =>
      match mapSt g xs σ1 with
      | (.error e, σ2) => (.error e, σ2)
      | (.ok vs, σ2) => (.ok (v :: vs), σ2)

/-- Evaluate `parse_array_to_list` recursively over the rows of a
two-dimensional literal. -/
def mapRows (g : String → Ctx → St Value) : List String → Ctx → St (List Value)
  | [], σ => (.ok [], σ)
  | x :: xs, σ =>
    match g x σ with
    | (.error e, σ1) => (.error e, σ1)
    | (.ok v, σ1) =>
      match mapRows g xs σ1 with
      | (.error e, σ2) => (.error e, σ2)
      | (.ok vs, σ2) => (.ok (v :: vs), σ2)

/-- Model of `parse_array_to_list` of `minizinc.py`, parametrised by the
leaf decoder.  In Python the leaf call is `parse(x)` with the default
`ctx=None`, so the leaf passed in below always runs without a context
object.  A `|`-delimited body is split on `|` into rows decoded
recursively; otherwise the body is split on `,` (a naive split: the split
model knows nothing about bracket nesting, exactly as `re.split` in the
source) and each cell is decoded by the leaf. -/
def parse_array_to_list (leaf : String → Ctx → St Value) : Nat → String → Ctx → St Value
  | 0, _, σ => (.error .fuelExhausted, σ)
  | fuel + 1, s, σ =>
    match rowPipeMatchL s.data with
    | some inner =>
      match mapRows (fun x σ2 => parse_array_to_list leaf fuel x σ2) (pySplit '|' ⟨inner⟩) σ with
      | (.error e, σ1) => (.error e, σ1)
      | (.ok vs, σ1) => (.ok (.seq vs), σ1)
    | none =>
      match mapSt leaf (pySplit ',' s) σ with
      | (.error e, σ1) => (.error e, σ1)
      | (.ok vs, σ1) => (.ok (.seq vs), σ1)

/-- Model of `parse` of `minizinc.py`, with a fuel bound on the recursion
depth.  The production order is the source's: indexed array header,
unindexed array literal, `parse_bool`, `int`, `float`, verbatim fallback.
Inside an unindexed literal the leaf decoder is `parse(x)` with the
default `ctx=None` (`hasCtx := false`), as in the source. -/
def parseF : Nat → String → Bool → Ctx → St Value
  | 0, _, _, σ => (.error .fuelExhausted, σ)
  | fuel + 1, s, hasCtx, σ =>
    match arrayHeaderMatchL s.data with
    | some (d, gi, gv) =>
      match parse_array (fun x σ2 => parseF fuel x hasCtx σ2) hasCtx d
          (pySplit ',' ⟨gi⟩) (pySplit ',' ⟨gv⟩) σ with
      | (.error e, σ1) => (.error e, σ1)
      | (.ok (v, _), σ1) => (.ok v, σ1)
    | none =>
      match arrayLitMatchL s.data with
      | some body => parse_array_to_list (fun x σ2 => parseF fuel x false σ2) fuel ⟨body⟩ σ
      | none =>
        match parse_bool s with
        | some b => (.ok (.bool b), σ)
        | none =>
          match pyInt? s with
          | some n => (.ok (.int n), σ)
          | none =>
            match pyFloat? s with
            | some q => (.ok (.float q), σ)
            | none => (.ok (.atom s), σ)

/-- Fuel that exceeds every reachable recursion depth of `parseF` on `s`:
every nested decode runs on a strictly shorter string and each nesting
level consumes at most two units. -/
def fuelFor (s : String) : Nat := 2 * s.length + 4

/-- Entry point with the context store threaded through. -/
def parseSt (s : String) (hasCtx : Bool) (σ : Ctx) : St Value :=
  parseF (fuelFor s) s hasCtx σ

/-- Model of `parse(s, ctx)`: the decoded value or the uncaught
exception.  `hasCtx = false` is the Python default `ctx=None`. -/
def parse (s : String) (hasCtx : Bool) (σ : Ctx) : Except PyErr Value :=
  (parseSt s hasCtx σ).1

/-- One element produced by the solve loop at a boundary line: the value
of the Python variable `d` at the `yield` — `None`, the accumulated
ordered dictionary, or a structured document returned by `json.loads`. -/
inductive Emit (J : Type) where
  | nil
  | dict (sol : List (String × Value))
  | json (j : J)

/-- The loop state of `MiniZinc.solve` between lines: the Python locals
`d` (the solution under construction, `None` until the first assignment
completes) and `ss` (the pending line fragments). -/
structure AccState where
  d : Option (List (String × Value))
  ss : List String

/-- Python `' '.join(ss)`. -/
def joinSp (ss : List String) : String := String.intercalate " " ss

/-- The element yielded at a boundary when no structured-document decode
happens: `d` itself, which is `None` when no assignment completed. -/
def emitOf {J : Type} (d : Option (List (String × Value))) : Emit J :=
  match d with
  | none => .nil
  | some sol => .dict sol

/-- One iteration of the `while True:` loop of `MiniZinc.solve` on one
(already decoded and right-stripped) line, for the default parameters
`result=None`, `verbose=0`.  `jsonLoads` models the external
`json.loads`.  A boundary line first tests `ss and ss[0] == '{'` (note:
equality with the one-character string) and on success hands the joined
block to `jsonLoads`, then yields and resets; any other line is appended
to `ss`, and the joined buffer is retested against the assignment
pattern — on a match the value text is decoded with `self` as context
(`hasCtx = true`) and stored in `d`.  An uncaught exception from the
decoder or from `jsonLoads` aborts the generator. -/
def stepLine {J : Type} (jsonLoads : String → Except String J) (σ : Ctx)
    (st : AccState) (line : String) : Except PyErr (Option (Emit J) × AccState) :=
  if isBoundaryLine line then
    match st.ss with
    | s0 :: _ =>
      if s0 = "\x7b" then
        match jsonLoads (joinSp st.ss) with
        | .error m => .error (.jsonError m)
        | .ok j => .ok (some (.json j), ⟨none, []⟩)
      else .ok (some (emitOf st.d), ⟨none, []⟩)
    | [] => .ok (some (emitOf st.d), ⟨none, []⟩)
  else
    let ss1 := st.ss ++ [line]
    match assignMatch (joinSp ss1) with
    | none => .ok (none, ⟨st.d, ss1⟩)
    | some (k, v) =>
      match parse v true σ with
      | .error e => .error e
      | .ok x => .ok (none, ⟨some (odUpdate (st.d.getD []) k x), []⟩)

/-- Run the solve loop over a list of lines from a given state, collecting
the yielded elements; an uncaught exception ends the run and is reported
as the second component. -/
def runLines {J : Type} (jl : String → Except String J) (σ : Ctx) (st : AccState) :
    List String → List (Emit J) × Option PyErr
  | [] => ([], none)
  | l :: ls =>
    match stepLine jl σ st l with
    | .error e => ([], some e)
    | .ok (none, st1) => runLines jl σ st1 ls
    | .ok (some o, st1) =>
      let r := runLines jl σ st1 ls
      (o :: r.1, r.2)

/-- Model of the output-reading part of `MiniZinc.solve`: the lazy
sequence of yielded solutions produced from the solver's line stream,
starting from the initial state `d = None`, `ss = []`. -/
def solve {J : Type} (jl : String → Except String J) (σ : Ctx) (lines : List String) :
    List (Emit J) × Option PyErr :=
  runLines jl σ ⟨none, []⟩ lines

/-- A structured-document decoder that always fails; used to instantiate
the `json.loads` parameter of concrete runs that never consult it. -/
def jlNone : String → Except String Unit := fun _ => .error "unused"

/-- A structured-document decoder that accepts every input. -/
def jlTrue : String → Except String Bool := fun _ => .ok true

/-- The structured-document decoder that returns the text it was given. -/
def jlEcho : String → Except String String := fun s => .ok s

/-! Helper lemmas: the decoder returns the context store unchanged. -/

/-- The `d == 1` loop returns the context store it was given. -/
theorem parse_array_loop1_ctx (leaf : String → Ctx → St Value)
    (h : ∀ x σ, (leaf x σ).2 = σ) :
    ∀ js vs acc σ, (parse_array_loop1 leaf js vs acc σ).2 = σ := by
  intro js
  induction js with
  | nil => intro vs acc σ; rfl
  | cons j js ih =>
    intro vs acc σ
    cases vs with
    | nil => rfl
    | cons v0 rest =>
      simp only [parse_array_loop1]
      rcases hv : leaf v0 σ with ⟨r, σ1⟩
      have hσ : σ1 = σ := by have h2 := h v0 σ; rw [hv] at h2; exact h2
      cases r with
      | error e => simpa using hσ
      | ok x => simpa [hσ] using ih rest (odUpdate acc j x) σ

/-- The `d > 1` loop returns the context store it was given. -/
theorem parse_array_loopN_ctx (sub : List String → Ctx → St (Value × List String))
    (h : ∀ vs σ, (sub vs σ).2 = σ) :
    ∀ js vs acc σ, (parse_array_loopN sub js vs acc σ).2 = σ := by
  intro js
  induction js with
  | nil => intro vs acc σ; rfl
  | cons j js ih =>
    intro vs acc σ
    simp only [parse_array_loopN]
    rcases hv : sub vs σ with ⟨r, σ1⟩
    have hσ : σ1 = σ := by have h2 := h vs σ; rw [hv] at h2; exact h2
    cases r with
    | error e => simpa using hσ
    | ok p => simpa [hσ] using ih p.2 (odUpdate acc j p.1) σ

/-- `parse_array` returns the context store it was given. -/
theorem parse_array_ctx (leaf : String → Ctx → St Value)
    (h : ∀ x σ, (leaf x σ).2 = σ) (b : Bool) :
    ∀ i d vs σ, (parse_array leaf b d i vs σ).2 = σ := by
  intro i
  induction i with
  | nil => intro d vs σ; rfl
  | cons i0 irest ih =>
    intro d vs σ
    simp only [parse_array]
    cases jsBinding i0 b σ with
    | unbound => rfl
    | val jv =>
      cases hf : jsFalsy jv with
      | true => simp [hf]
      | false =>
        simp only [hf]
        by_cases hd : d = 1
        · simp only [hd, if_pos, Bool.false_eq_true, if_false]
          exact parse_array_loop1_ctx leaf h _ vs [] σ
        · simp only [hd, Bool.false_eq_true, if_false]
          exact parse_array_loopN_ctx _ (fun vs2 σ2 => ih (d - 1) vs2 σ2) _ vs [] σ

/-- `mapSt` returns the context store it was given. -/
theorem mapSt_ctx (g : String → Ctx → St Value)
    (h : ∀ x σ, (g x σ).2 = σ) :
    ∀ xs σ, (mapSt g xs σ).2 = σ := by
  intro xs
  induction xs with
  | nil => intro σ; rfl
  | cons x xs ih =>
    intro σ
    simp only [mapSt]
    split
    · rename_i e σ1 heq
      have h2 := h x σ; rw [heq] at h2; exact h2
    · rename_i v σ1 heq
      have h2 : σ1 = σ := by have h3 := h x σ; rw [heq] at h3; exact h3
      split
      · rename_i e σ2 heq2
        have h3 : σ2 = σ1 := by have h4 := ih σ1; rw [heq2] at h4; exact h4
        exact h3.trans h2
      · rename_i vs σ2 heq2
        have h3 : σ2 = σ1 := by have h4 := ih σ1; rw [heq2] at h4; exact h4
        exact h3.trans h2

/-- `mapRows` returns the context store it was given. -/
theorem mapRows_ctx (g : String → Ctx → St Value)
    (h : ∀ x σ, (g x σ).2 = σ) :
    ∀ xs σ, (mapRows g xs σ).2 = σ := by
  intro xs
  induction xs with
  | nil => intro σ; rfl
  | cons x xs ih =>
    intro σ
    simp only [mapRows]
    split
    · rename_i e σ1 heq
      have h2 := h x σ; rw [heq] at h2; exact h2
    · rename_i v σ1 heq
      have h2 : σ1 = σ := by have h3 := h x σ; rw [heq] at h3; exact h3
      split
      · rename_i e σ2 heq2
        have h3 : σ2 = σ1 := by have h4 := ih σ1; rw [heq2] at h4; exact h4
        exact h3.trans h2
      · rename_i vs σ2 heq2
        have h3 : σ2 = σ1 := by have h4 := ih σ1; rw [heq2] at h4; exact h4
        exact h3.trans h2

/-- `parse_array_to_list` returns the context store it was given. -/
theorem parse_array_to_list_ctx (leaf : String → Ctx → St Value)
    (h : ∀ x σ, (leaf x σ).2 = σ) :
    ∀ fuel s σ, (parse_array_to_list leaf fuel s σ).2 = σ := by
  intro fuel
  induction fuel with
  | zero => intro s σ; rfl
  | succ f ih =>
    intro s σ
    simp only [parse_array_to_list]
    split
    · rename_i inner hpm
      split
      · rename_i e σ1 heq
        have h2 := mapRows_ctx (fun x σ2 => parse_array_to_list leaf f x σ2)
          (fun x σ2 => ih x σ2) (pySplit '|' ⟨inner⟩) σ
        rw [heq] at h2; exact h2
      · rename_i vs σ1 heq
        have h2 := mapRows_ctx (fun x σ2 => parse_array_to_list leaf f x σ2)
          (fun x σ2 => ih x σ2) (pySplit '|' ⟨inner⟩) σ
        rw [heq] at h2; exact h2
    · split
      · rename_i e σ1 heq
        have h2 := mapSt_ctx leaf h (pySplit ',' s) σ
        rw [heq] at h2; exact h2
      · rename_i vs σ1 heq
        have h2 := mapSt_ctx leaf h (pySplit ',' s) σ
        rw [heq] at h2; exact h2

/-- `parseF` returns the context store it was given, for every fuel. -/
theorem parseF_ctx : ∀ fuel s b σ, (parseF fuel s b σ).2 = σ := by
  intro fuel
  induction fuel with
  | zero => intro s b σ; rfl
  | succ f ih =>
    intro s b σ
    simp only [parseF]
    split
    · rename_i d gi gv hhm
      split
      · rename_i e σ1 heq
        have h2 := parse_array_ctx (fun x σ2 => parseF f x b σ2)
          (fun x σ2 => ih x b σ2) b (pySplit ',' ⟨gi⟩) d (pySplit ',' ⟨gv⟩) σ
        rw [heq] at h2; exact h2
      · rename_i v rest σ1 heq
        have h2 := parse_array_ctx (fun x σ2 => parseF f x b σ2)
          (fun x σ2 => ih x b σ2) b (pySplit ',' ⟨gi⟩) d (pySplit ',' ⟨gv⟩) σ
        rw [heq] at h2; exact h2
    · split
      · rename_i body hbm
        exact parse_array_to_list_ctx (fun x σ2 => parseF f x false σ2)
          (fun x σ2 => ih x false σ2) f ⟨body⟩ σ
      · split
        · rfl
        · split
          · rfl
          · split
            · rfl
            · rfl

/-- The entry point returns the context store it was given. -/
theorem parseSt_ctx (s : String) (b : Bool) (σ : Ctx) : (parseSt s b σ).2 = σ :=
  parseF_ctx (fuelFor s) s b σ

/-! Helper lemmas about the solve loop. -/

/-- A non-boundary line never yields: the step returns an error or no
emitted element. -/
theorem stepLine_no_boundary {J : Type} (jl : String → Except String J) (σ : Ctx)
    (st : AccState) (l : String) (hl : isBoundaryLine l = false) :
    (∃ e, stepLine jl σ st l = .error e) ∨ ∃ st1, stepLine jl σ st l = .ok (none, st1) := by
  simp only [stepLine, hl, Bool.false_eq_true, if_false]
  cases assignMatch (joinSp (st.ss ++ [l])) with
  | none => exact Or.inr ⟨_, rfl⟩
  | some kv =>
    obtain ⟨k, v⟩ := kv
    cases hp : parse v true σ with
    | error e => exact Or.inl ⟨e, by simp [hp]⟩
    | ok x => exact Or.inr ⟨⟨some (odUpdate (st.d.getD []) k x), []⟩, by simp [hp]⟩

/-- A run over lines none of which is a boundary line yields nothing. -/
theorem runLines_no_boundary {J : Type} (jl : String → Except String J) (σ : Ctx) :
    ∀ ls st, (∀ l ∈ ls, isBoundaryLine l = false) → (runLines jl σ st ls).1 = [] := by
  intro ls
  induction ls with
  | nil => intro st _; rfl
  | cons l ls ih =>
    intro st h
    have hl : isBoundaryLine l = false := h l (by simp)
    have hrest : ∀ x ∈ ls, isBoundaryLine x = false := fun x hx => h x (by simp [hx])
    rcases stepLine_no_boundary jl σ st l hl with ⟨e, hs⟩ | ⟨st1, hs⟩
    · simp [runLines, hs]
    · simp only [runLines, hs]
      exact ih st1 hrest

/-- Appending lines with no boundary line does not change the yields. -/
theorem runLines_append_no_boundary {J : Type} (jl : String → Except String J) (σ : Ctx)
    (suffix : List String) (h : ∀ l ∈ suffix, isBoundaryLine l = false) :
    ∀ ls st, (runLines jl σ st (ls ++ suffix)).1 = (runLines jl σ st ls).1 := by
  intro ls
  induction ls with
  | nil =>
    intro st
    simpa using runLines_no_boundary jl σ suffix st h
  | cons l ls ih =>
    intro st
    simp only [List.cons_append, runLines]
    cases hs : stepLine jl σ st l with
    | error e => rfl
    | ok p =>
      obtain ⟨o, st1⟩ := p
      cases o with
      | none => exact ih st1
      | some o2 =>
        show o2 :: (runLines jl σ st1 (ls ++ suffix)).1 = o2 :: (runLines jl σ st1 ls).1
        rw [ih st1]

/-- Once a run has ended with an uncaught exception, the lines after the
failing one are never processed. -/
theorem runLines_error_append {J : Type} (jl : String → Except String J) (σ : Ctx)
    (ls2 : List String) (e : PyErr) :
    ∀ ls1 st, (runLines jl σ st ls1).2 = some e →
      runLines jl σ st (ls1 ++ ls2) = runLines jl σ st ls1 := by
  intro ls1
  induction ls1 with
  | nil => intro st h; simp only [runLines] at h; exact absurd h (by simp)
  | cons l ls ih =>
    intro st h
    simp only [runLines] at h ⊢
    cases hs : stepLine jl σ st l with
    | error e2 => rfl
    | ok p =>
      obtain ⟨o, st1⟩ := p
      rw [hs] at h
      cases o with
      | none =>
        simp only at h
        exact ih st1 h
      | some o2 =>
        simp only at h
        show (o2 :: (runLines jl σ st1 (ls ++ ls2)).1, (runLines jl σ st1 (ls ++ ls2)).2) =
          (o2 :: (runLines jl σ st1 ls).1, (runLines jl σ st1 ls).2)
        rw [ih st1 h]

/-- One-step unfolding of `parseF` at a successor fuel when the indexed
array header matches. -/
theorem parseF_header (f : Nat) (s : String) (b : Bool) (σ : Ctx) (d : Nat)
    (gi gv : List Char) (hm : arrayHeaderMatchL s.data = some (d, gi, gv)) :
    parseF (f + 1) s b σ =
      (match parse_array (fun x σ2 => parseF f x b σ2) b d
          (pySplit ',' ⟨gi⟩) (pySplit ',' ⟨gv⟩) σ with
        | (.error e, σ1) => (.error e, σ1)
        | (.ok (v, _), σ1) => (.ok v, σ1)) := by
  simp only [parseF]
  rw [hm]

/-! The claims. -/

/-- C1: feeding the driver the six lines `a = 1;`, `b = true;`,
`----------`, `a = 2;`, `b = false;`, `----------` yields exactly two
Solutions, first the ordered mapping `a ↦ Int 1, b ↦ Bool true` and then
`a ↦ Int 2, b ↦ Bool false`, in that order (for every `json.loads`
collaborator and every index context, neither of which is consulted). -/
theorem c1_driver_end_to_end {J : Type} (jl : String → Except String J) (σ : Ctx) :
    solve jl σ ["a = 1;", "b = true;", "----------", "a = 2;", "b = false;", "----------"] =
      ([.dict [("a", .int 1), ("b", .bool true)], .dict [("a", .int 2), ("b", .bool false)]],
        none) := rfl

/-- C2, counterexample: a stream whose first assignment fails to decode
(`array1d(Unknown[1])` with an empty index context) produces no element
at all — in particular the second, well-formed solution block is never
decoded or yielded — and ends with the uncaught `ValueError`.  This
refutes the claim that the driver reports the error and then continues
with the subsequent lines of the stream. -/
theorem c2_decode_error_kills_stream_counterexample :
    solve jlNone [] ["a = array1d(Unknown[1]);", "----------", "b = 2;", "----------"] =
      ([], some (.valueError "bad index: Unknown")) := rfl

/-- C2, amended: a decode error is an uncaught exception that terminates
the produced sequence: once a run of the driver has ended with an error,
appending further lines to the stream changes nothing — the lines after
the failing one are never processed. -/
theorem c2_decode_error_terminates_stream {J : Type} (jl : String → Except String J)
    (σ : Ctx) (ls1 ls2 : List String) (e : PyErr)
    (h : (solve jl σ ls1).2 = some e) :
    solve jl σ (ls1 ++ ls2) = solve jl σ ls1 :=
  runLines_error_append jl σ ls2 e ls1 ⟨none, []⟩ h

/-- C2, witness for the amended theorem at the concrete failing stream. -/
theorem c2_decode_error_terminates_stream_witness :
    (solve jlNone [] ["a = array1d(Unknown[1]);"]).2 =
      some (PyErr.valueError "bad index: Unknown") ∧
    solve jlNone [] (["a = array1d(Unknown[1]);"] ++ ["----------", "b = 2;", "----------"]) =
      solve jlNone [] ["a = array1d(Unknown[1]);"] :=
  ⟨rfl, c2_decode_error_terminates_stream jlNone [] _ _ _ rfl⟩

/-- C3, counterexample: decoding the nested literal `[[1, 2], [3, 4]]`
does not return the Sequence of the two nested Sequences — the naive
comma split cuts inside the inner brackets, so the cells come back as
the verbatim fragments `[1`, `2]`, `[3`, `4]`. -/
theorem c3_nested_split_counterexample :
    parse "[[1, 2], [3, 4]]" false [] =
      .ok (.seq [.atom "[1", .atom "2]", .atom "[3", .atom "4]"]) ∧
    Value.seq [.atom "[1", .atom "2]", .atom "[3", .atom "4]"] ≠
      Value.seq [.seq [.int 1, .int 2], .seq [.int 3, .int 4]] :=
  ⟨rfl, by simp⟩

/-- C3, amended: element splitting is a naive `re.split` that knows
nothing of bracket depth, so commas inside nested brackets are treated
as element separators and a nested unindexed literal decodes to verbatim
fragments; the two-dimensional form the solver actually emits uses `|`
row separators at the top level and decodes as nested Sequences. -/
theorem c3_naive_split_amended :
    parse "[[1, 2], [3, 4]]" false [] =
      .ok (.seq [.atom "[1", .atom "2]", .atom "[3", .atom "4]"]) ∧
    parse "[| 1, 2 | 3, 4 |]" false [] =
      .ok (.seq [.seq [.int 1, .int 2], .seq [.int 3, .int 4]]) :=
  ⟨rfl, rfl⟩

/-- C4, counterexample: a boundary line with no completed assignments
yields the Python `None` (the variable `d` was never replaced by a
dictionary), not an empty ordered mapping. -/
theorem c4_empty_block_counterexample :
    solve jlNone [] ["----------"] = ([Emit.nil], none) ∧
    (Emit.nil : Emit Unit) ≠ Emit.dict [] :=
  ⟨rfl, by simp⟩

/-- C4, amended: a boundary line with no completed assignments still
yields exactly one element per boundary, but that element is `None`
(a non-mapping value), for every `json.loads` collaborator and context. -/
theorem c4_empty_block_yields_none {J : Type} (jl : String → Except String J) (σ : Ctx) :
    solve jl σ ["----------", "----------"] = ([Emit.nil, Emit.nil], none) := rfl

/-- C5, counterexample: a block whose first fragment merely begins with
`{` (here the single line `{"a": 1}`) is not handed to the structured
document decoder — even one that accepts every input — and the boundary
yields `None` instead of a structured document. -/
theorem c5_brace_line_counterexample :
    solve jlTrue [] ["\x7b\x22a\x22: 1\x7d", "----------"] = ([Emit.nil], none) ∧
    (Emit.nil : Emit Bool) ≠ Emit.json true :=
  ⟨rfl, by simp⟩

/-- C5, amended: the whole-block structured fallback triggers only when
the first accumulated fragment is exactly the one-character string `{`;
in that case the block's joined text is handed to the structured-document
decoder and its result is yielded as the Solution. -/
theorem c5_json_mode_exact_brace {J : Type} (jl : String → Except String J) (σ : Ctx)
    (j : J) (h : jl "\x7b \x22a\x22: 1 \x7d" = .ok j) :
    solve jl σ ["\x7b", "\x22a\x22: 1", "\x7d", "----------"] = ([.json j], none) := by
  have s4 : stepLine jl σ ⟨none, ["\x7b", "\x22a\x22: 1", "\x7d"]⟩ "----------" =
      (match jl "\x7b \x22a\x22: 1 \x7d" with
        | .error m => .error (.jsonError m)
        | .ok j2 => .ok (some (.json j2), ⟨none, []⟩)) := rfl
  rw [h] at s4
  have s1 : stepLine jl σ (⟨none, []⟩ : AccState) "\x7b" = .ok (none, ⟨none, ["\x7b"]⟩) := rfl
  have s2 : stepLine jl σ ⟨none, ["\x7b"]⟩ "\x22a\x22: 1" =
      .ok (none, ⟨none, ["\x7b", "\x22a\x22: 1"]⟩) := rfl
  have s3 : stepLine jl σ ⟨none, ["\x7b", "\x22a\x22: 1"]⟩ "\x7d" =
      .ok (none, ⟨none, ["\x7b", "\x22a\x22: 1", "\x7d"]⟩) := rfl
  simp [solve, runLines, s1, s2, s3, s4]

/-- C5, witness for the amended theorem with the echo decoder. -/
theorem c5_json_mode_exact_brace_witness :
    jlEcho "\x7b \x22a\x22: 1 \x7d" = .ok "\x7b \x22a\x22: 1 \x7d" ∧
    solve jlEcho [] ["\x7b", "\x22a\x22: 1", "\x7d", "----------"] =
      ([.json "\x7b \x22a\x22: 1 \x7d"], none) :=
  ⟨rfl, c5_json_mode_exact_brace jlEcho [] _ rfl⟩

/-- C6: for every indexed-array text whose first index specification is
not a numeric range and names an identifier absent from the index
context, decoding with a context object fails with
`ValueError ("bad index: " ++ identifier)` — the offending identifier is
reported — rather than returning a value or an empty result. -/
theorem c6_unknown_index_reported (s i0 : String) (irest : List String) (σ : Ctx)
    (d : Nat) (gi gv : List Char)
    (hm : arrayHeaderMatchL s.data = some (d, gi, gv))
    (hsplit : pySplit ',' ⟨gi⟩ = i0 :: irest)
    (hr : rangeMatch i0 = none)
    (hctx : ctxGet σ i0 = none) :
    parse s true σ = .error (.valueError ("bad index: " ++ i0)) := by
  have harr : parse_array (fun x σ2 => parseF (2 * s.length + 3) x true σ2) true d
      (i0 :: irest) (pySplit ',' ⟨gv⟩) σ =
      (.error (.valueError ("bad index: " ++ i0)), σ) := by
    simp [parse_array, jsBinding, hr, hctx, jsFalsy]
  unfold parse parseSt
  rw [show fuelFor s = (2 * s.length + 3) + 1 from rfl,
    parseF_header (2 * s.length + 3) s true σ d gi gv hm, hsplit, harr]

/-- C6, witness at the spec's example `array1d(Unknown[1])` with an
empty context. -/
theorem c6_unknown_index_reported_witness :
    (arrayHeaderMatchL "array1d(Unknown[1])".data = some (1, "Unknown".data, "1".data) ∧
      pySplit ',' ⟨"Unknown".data⟩ = ["Unknown"] ∧
      rangeMatch "Unknown" = none ∧ ctxGet [] "Unknown" = none) ∧
    parse "array1d(Unknown[1])" true [] =
      .error (.valueError ("bad index: " ++ "Unknown")) :=
  ⟨⟨rfl, rfl, rfl, rfl⟩,
    c6_unknown_index_reported "array1d(Unknown[1])" "Unknown" [] [] 1
      "Unknown".data "1".data rfl rfl rfl rfl⟩

/-- C7: feeding the accumulator `x = array2d(1..1, 1..2,` and then
`[1, 2]);` as two successive lines yields no completion on the first
call (the buffer retains the line) and exactly one completion on the
second, whose decoded value is identical to the one obtained by feeding
the whole statement in a single line — the continuation is joined with a
single space before the statement pattern is retested. -/
theorem c7_accumulator_continuation {J : Type} (jl : String → Except String J) (σ : Ctx) :
    stepLine jl σ ⟨none, []⟩ "x = array2d(1..1, 1..2," =
      .ok (none, ⟨none, ["x = array2d(1..1, 1..2,"]⟩) ∧
    stepLine jl σ ⟨none, ["x = array2d(1..1, 1..2,"]⟩ "[1, 2]);" =
      .ok (none, ⟨some [("x", .dict [(.i 1, .dict [(.i 1, .int 1), (.i 2, .int 2)])])], []⟩) ∧
    stepLine jl σ ⟨none, []⟩ "x = array2d(1..1, 1..2, [1, 2]);" =
      .ok (none, ⟨some [("x", .dict [(.i 1, .dict [(.i 1, .int 1), (.i 2, .int 2)])])], []⟩) :=
  ⟨rfl, rfl, rfl⟩

/-- C8: for every finite line stream, the lines after the last boundary
line (a trailing partial block) contribute no yielded Solution: appending
any suffix containing no boundary line leaves the yielded sequence
unchanged, so the incomplete block is discarded at end of input. -/
theorem c8_trailing_lines_no_yield {J : Type} (jl : String → Except String J) (σ : Ctx)
    (ls suffix : List String) (h : ∀ l ∈ suffix, isBoundaryLine l = false) :
    (solve jl σ (ls ++ suffix)).1 = (solve jl σ ls).1 :=
  runLines_append_no_boundary jl σ suffix h ls ⟨none, []⟩

/-- C8, witness at the spec's example: the single line `a = 1;` with no
boundary yields zero Solutions. -/
theorem c8_trailing_lines_no_yield_witness :
    (∀ l ∈ ["a = 1;"], isBoundaryLine l = false) ∧
    (solve jlNone [] ([] ++ ["a = 1;"])).1 = (solve jlNone [] ([] : List String)).1 :=
  ⟨by decide, c8_trailing_lines_no_yield jlNone [] [] ["a = 1;"] (by decide)⟩

/-- C9: the value decoder is a pure function of its two inputs and never
mutates the index context: the state-threaded run returns the store it
was given together with the value of the pure function, and a second
decode of the same text against the store left by the first returns a
structurally equal value. -/
theorem c9_decoder_pure_ctx_unchanged (s : String) (b : Bool) (σ : Ctx) :
    parseSt s b σ = (parse s b σ, σ) ∧
    parse s b (parseSt s b σ).2 = parse s b σ := by
  have h2 : (parseSt s b σ).2 = σ := parseSt_ctx s b σ
  exact ⟨Prod.ext rfl h2, by rw [h2]⟩

/-- C10: when the decoder is called without a context object (the Python
default `ctx=None`) on an indexed-array text whose first index
specification is not of the numeric `digits..digits` form, neither
branch assigns the local variable `js`, so the `if not js` test raises
`UnboundLocalError` — the documented `bad index` error path is never
reached and no value is returned. -/
theorem c10_missing_ctx_unbound_js (s i0 : String) (irest : List String) (σ : Ctx)
    (d : Nat) (gi gv : List Char)
    (hm : arrayHeaderMatchL s.data = some (d, gi, gv))
    (hsplit : pySplit ',' ⟨gi⟩ = i0 :: irest)
    (hr : rangeMatch i0 = none) :
    parse s false σ = .error (.unboundLocal "js") := by
  have harr : parse_array (fun x σ2 => parseF (2 * s.length + 3) x false σ2) false d
      (i0 :: irest) (pySplit ',' ⟨gv⟩) σ = (.error (.unboundLocal "js"), σ) := by
    simp [parse_array, jsBinding, hr]
  unfold parse parseSt
  rw [show fuelFor s = (2 * s.length + 3) + 1 from rfl,
    parseF_header (2 * s.length + 3) s false σ d gi gv hm, hsplit, harr]

/-- C10, witness at `array1d(Color[1])` decoded with no context object. -/
theorem c10_missing_ctx_unbound_js_witness :
    (arrayHeaderMatchL "array1d(Color[1])".data = some (1, "Color".data, "1".data) ∧
      pySplit ',' ⟨"Color".data⟩ = ["Color"] ∧ rangeMatch "Color" = none) ∧
    parse "array1d(Color[1])" false [] = .error (.unboundLocal "js") :=
  ⟨⟨rfl, rfl, rfl⟩,
    c10_missing_ctx_unbound_js "array1d(Color[1])" "Color" [] [] 1
      "Color".data "1".data rfl rfl rfl⟩

end Mzn
